import Mathlib

/-!
Verification of the pocketpy VS Code extension (`src/extension.ts`, third and
current variant of the file, plus its historical variants) against its
natural-language specification.  The TypeScript source is shallowly embedded:
pure computations become Lean functions, the Node `path` module is modelled
over segment lists, JavaScript numbers appearing in the profiler arithmetic
are modelled as exact rationals (with a dedicated `JSNum` type where the
source can produce `NaN`/`Infinity`), and the event-driven pieces (the debug
adapter tracker, the launch handshake loop) become pure step functions over
explicit message/outcome sequences.
-/

/-! ## Model of the Node `path` module (POSIX flavour)

A path string is modelled as an absoluteness flag plus its list of
`/`-separated segments.  `pathRelative`, `pathJoin` and the normalization
below model `path.posix.relative`, `path.posix.join` and the lexical
`..`/`.` resolution they perform; `FsPath.absolute` models
`path.isAbsolute`.  Segments are arbitrary strings; a real path segment is
nonempty, not `"."`, not `".."` (the `cleanSeg` predicate below). -/

structure FsPath where
  absolute : Bool
  segs : List String
deriving DecidableEq, Repr

/-- One segment of a canonical path: nonempty and not a `.`/`..` marker. -/
def cleanSeg (s : String) : Prop := s ≠ "" ∧ s ≠ "." ∧ s ≠ ".."

instance (s : String) : Decidable (cleanSeg s) := by
  unfold cleanSeg; infer_instance

/-- Core of Node's lexical path normalization: walk the segments left to
right keeping an accumulator (in reverse order); `""` and `"."` segments are
dropped, `".."` pops the accumulator (when `allowUp` is set — i.e. for a
relative path — an unmatched `".."` is kept; for an absolute path it
vanishes at the root). -/
def normSegsRev (allowUp : Bool) : List String → List String → List String
  | acc, [] => acc.reverse
  | acc, s :: rest =>
    if s = "" ∨ s = "." then normSegsRev allowUp acc rest
    else if s = ".." then
      match acc with
      | [] => normSegsRev allowUp (if allowUp then [".."] else []) rest
      | a :: as =>
        if a = ".." then normSegsRev allowUp (".." :: a :: as) rest
        else normSegsRev allowUp as rest
    else normSegsRev allowUp (s :: acc) rest

/-- Lexical normalization of a segment list (`absolute` tells whether the
path is absolute, in which case `..` cannot escape the root). -/
def normalizeSegs (absolute : Bool) (l : List String) : List String :=
  normSegsRev (!absolute) [] l

/-- Strip the longest common prefix of two segment lists, returning the two
remainders (the common-ancestor computation inside `path.posix.relative`). -/
def dropCommonPrefix : List String → List String → List String × List String
  | a :: as, b :: bs =>
    if a = b then dropCommonPrefix as bs else (a :: as, b :: bs)
  | as, bs => (as, bs)

/-- Model of `path.posix.relative(from, to)` for absolute arguments: both
sides are resolved (normalized), the common prefix is dropped, and the
result climbs with one `".."` per remaining `from` segment. -/
def pathRelative (f t : FsPath) : FsPath :=
  let fs := normalizeSegs true f.segs
  let ts := normalizeSegs true t.segs
  let p := dropCommonPrefix fs ts
  ⟨false, List.replicate p.1.length ".." ++ p.2⟩

/-- Model of `path.posix.join(a, b)`: concatenate and normalize; the result
is absolute iff the first part is. -/
def pathJoin (a b : FsPath) : FsPath :=
  ⟨a.absolute, normalizeSegs a.absolute (a.segs ++ b.segs)⟩

/-! ## PathRewriter (`createDebugAdapterTracker`, extension.ts lines 315–324)

The current tracker closes over `sourceFolder` and defines
`toRelativePath(absPath) = path.relative(sourceFolder, absPath)` with no
guard, and `toAbsolutePath(relPath) = path.isAbsolute(relPath) ? relPath :
path.join(sourceFolder, relPath)`. -/

def toRelativePath (sourceFolder absPath : FsPath) : FsPath :=
  pathRelative sourceFolder absPath

def toAbsolutePath (sourceFolder relPath : FsPath) : FsPath :=
  if relPath.absolute then relPath else pathJoin sourceFolder relPath

/-! ### Path lemmas -/

/-- Normalization leaves a list of clean segments untouched. -/
theorem normSegsRev_clean (allowUp : Bool) (l acc : List String)
    (h : ∀ s ∈ l, cleanSeg s) :
    normSegsRev allowUp acc l = acc.reverse ++ l := by
  induction l generalizing acc with
  | nil => simp [normSegsRev]
  | cons s rest ih =>
    have hs : cleanSeg s := h s (List.mem_cons_self s rest)
    have hrest : ∀ x ∈ rest, cleanSeg x := fun x hx => h x (List.mem_cons_of_mem s hx)
    obtain ⟨h1, h2, h3⟩ := hs
    simp only [normSegsRev, h1, h2, h3, or_self, if_false, ite_false]
    rw [ih _ hrest]
    simp

theorem normalizeSegs_clean (absolute : Bool) (l : List String)
    (h : ∀ s ∈ l, cleanSeg s) : normalizeSegs absolute l = l := by
  simpa [normalizeSegs] using normSegsRev_clean (!absolute) l [] h

theorem dropCommonPrefix_append (rs t : List String) :
    dropCommonPrefix rs (rs ++ t) = ([], t) := by
  induction rs with
  | nil =>
    cases t <;> simp [dropCommonPrefix]
  | cons a as ih => simpa [dropCommonPrefix] using ih

/-- claim C3 (confirmed): for every canonical absolute path `p` lying under
the canonical absolute root, `toAbsolute(toRelative(p, root), root) = p` —
the PathRewriter rewrite round-trips to the identity on paths under the
root. -/
theorem pathRewriter_roundtrip (rs ps : List String)
    (hrs : ∀ s ∈ rs, cleanSeg s) (hps : ∀ s ∈ ps, cleanSeg s)
    (hunder : rs <+: ps) :
    toAbsolutePath ⟨true, rs⟩ (toRelativePath ⟨true, rs⟩ ⟨true, ps⟩) = ⟨true, ps⟩ := by
  obtain ⟨t, rfl⟩ := hunder
  have ht : ∀ s ∈ t, cleanSeg s := fun s hs => hps s (List.mem_append_right rs hs)
  simp only [toRelativePath, pathRelative, normalizeSegs_clean _ _ hrs,
    normalizeSegs_clean _ _ hps, dropCommonPrefix_append]
  simp only [List.length_nil, List.replicate_zero, List.nil_append,
    toAbsolutePath, pathJoin]
  simp [normalizeSegs_clean _ _ hps]

/-- Witness for `pathRewriter_roundtrip` at a concrete root and path. -/
theorem pathRewriter_roundtrip_witness :
    toAbsolutePath ⟨true, ["home", "u", "proj"]⟩
      (toRelativePath ⟨true, ["home", "u", "proj"]⟩
        ⟨true, ["home", "u", "proj", "src", "main.py"]⟩)
      = ⟨true, ["home", "u", "proj", "src", "main.py"]⟩ :=
  pathRewriter_roundtrip ["home", "u", "proj"]
    ["home", "u", "proj", "src", "main.py"]
    (by decide) (by decide) ⟨["src", "main.py"], rfl⟩

/-- claim C2 (counterexample): for the absolute path `/x/y.py`, which does
not lie under the root `/a/b`, the current `toRelativePath` does NOT return
the path unchanged: it returns the traversal path `../../x/y.py`. -/
theorem toRelativePath_outside_root_changed :
    ¬ (["a", "b"] <+: ["x", "y.py"]) ∧
    toRelativePath ⟨true, ["a", "b"]⟩ ⟨true, ["x", "y.py"]⟩
      = ⟨false, ["..", "..", "x", "y.py"]⟩ ∧
    toRelativePath ⟨true, ["a", "b"]⟩ ⟨true, ["x", "y.py"]⟩
      ≠ ⟨true, ["x", "y.py"]⟩ := by
  refine ⟨?_, by decide, by decide⟩
  rintro ⟨t, h⟩
  simp at h

/-- claim C2 (amended): the current `toRelativePath` applies `path.relative`
unconditionally, so every absolute path is converted to a relative path
(absoluteness flag cleared) and is never returned unchanged; a path under
the root becomes the root-relative suffix, and any path becomes a
`..`-climb followed by a clean remainder. -/
theorem toRelativePath_always_relativizes (rs ps : List String)
    (hrs : ∀ s ∈ rs, cleanSeg s) (hps : ∀ s ∈ ps, cleanSeg s) :
    (toRelativePath ⟨true, rs⟩ ⟨true, ps⟩).absolute = false ∧
    toRelativePath ⟨true, rs⟩ ⟨true, ps⟩ ≠ ⟨true, ps⟩ ∧
    (∃ k rest, toRelativePath ⟨true, rs⟩ ⟨true, ps⟩
        = ⟨false, List.replicate k ".." ++ rest⟩) ∧
    (rs <+: ps →
      toRelativePath ⟨true, rs⟩ ⟨true, ps⟩ = ⟨false, ps.drop rs.length⟩) := by
  refine ⟨rfl, ?_, ?_, ?_⟩
  · intro h
    have := congrArg FsPath.absolute h
    simp [toRelativePath, pathRelative] at this
  · exact ⟨_, _, rfl⟩
  · rintro ⟨t, rfl⟩
    simp only [toRelativePath, pathRelative, normalizeSegs_clean _ _ hrs,
      normalizeSegs_clean _ _ hps, dropCommonPrefix_append]
    simp

/-- Witness for `toRelativePath_always_relativizes` at a concrete input. -/
theorem toRelativePath_always_relativizes_witness :
    toRelativePath ⟨true, ["a", "b"]⟩ ⟨true, ["a", "b", "m.py"]⟩
      = ⟨false, ["m.py"]⟩ :=
  (toRelativePath_always_relativizes ["a", "b"] ["a", "b", "m.py"]
    (by decide) (by decide)).2.2.2 ⟨["m.py"], rfl⟩

/-! ## LaunchSynchronizer (`pingserver`, extension.ts lines 262–280)

The source loops forever: at each iteration it first checks
`Date.now() - start > 60_000` and throws a timeout error if so; otherwise it
opens a TCP connection, writes a fixed probe, and awaits either a `data`
event (success: the loop breaks) or an `error` event (failure: it sleeps
150 ms and retries).  A connection that is accepted but on which the server
never sends a byte settles neither promise branch, so the `await` suspends
forever.

The wall clock and the network are modelled by a finite list of per-attempt
outcomes: `refused d` (the attempt errors after `d` ms), `responds d` (a
byte arrives after `d` ms), `silent` (the connection opens but no byte and
no error ever arrive).  `pingserver outcomes elapsed` runs the loop from a
given elapsed time; `PingResult.hangs` marks an execution that never
returns (a silent attempt, or the outcome stream running out, which the
model treats as unspecified). -/

inductive AttemptOutcome
  | refused (d : Nat)
  | silent
  | responds (d : Nat)
deriving DecidableEq, Repr

inductive PingResult
  | success
  | timeoutError
  | hangs
deriving DecidableEq, Repr

def pingTimeout : Nat := 60000

def retryDelay : Nat := 150

def pingserver : List AttemptOutcome → Nat → PingResult
  | [], _ => .hangs
  | o :: rest, elapsed =>
    if elapsed > pingTimeout then .timeoutError
    else
      match o with
      | .refused d => pingserver rest (elapsed + d + retryDelay)
      | .silent => .hangs
      | .responds _ => .success

/-- An attempt outcome that fails (connection refused / errored). -/
def isRefused : AttemptOutcome → Bool
  | .refused _ => true
  | _ => false

/-- Wall-clock cost of a failed attempt: its own duration plus the fixed
150 ms back-off. -/
def refusedCost : AttemptOutcome → Nat
  | .refused d => d + retryDelay
  | _ => 0

/-- Total wall-clock time consumed by a list of failed attempts. -/
def totalCost (l : List AttemptOutcome) : Nat := (l.map refusedCost).sum

/-- claim C4 (counterexample): against an endpoint whose connection is
accepted but which never sends a byte, `pingserver` hangs forever (the
awaited promise never settles), so it does NOT fail with a timeout error
and it does hang past the 60-second bound. -/
theorem pingserver_silent_connection_hangs :
    pingserver [AttemptOutcome.silent] 0 = PingResult.hangs ∧
    PingResult.hangs ≠ PingResult.timeoutError := by
  exact ⟨rfl, by decide⟩

/-- claim C4 (amended): against an endpoint every connection attempt to
which is refused (errors in finite time), `pingserver` waits the fixed
150 ms after each failed attempt and returns a timeout error at the first
per-attempt check made after total elapsed time exceeds the 60 000 ms
bound; the bound is checked once per attempt, whatever the next attempt's
outcome would have been. -/
theorem pingserver_refused_times_out (l : List AttemptOutcome)
    (o : AttemptOutcome) (e : Nat)
    (hl : ∀ x ∈ l, isRefused x = true)
    (hcost : pingTimeout < e + totalCost l) :
    pingserver (l ++ [o]) e = PingResult.timeoutError := by
  induction l generalizing e with
  | nil =>
    simp only [totalCost, List.map_nil, List.sum_nil, Nat.add_zero] at hcost
    simp [pingserver, hcost]
  | cons x rest ih =>
    have hx : isRefused x = true := hl x (List.mem_cons_self x rest)
    obtain ⟨d, rfl⟩ : ∃ d, x = AttemptOutcome.refused d := by
      cases x with
      | refused d => exact ⟨d, rfl⟩
      | silent => simp [isRefused] at hx
      | responds d => simp [isRefused] at hx
    have hrest : ∀ x ∈ rest, isRefused x = true :=
      fun x hx' => hl x (List.mem_cons_of_mem _ hx')
    by_cases he : e > pingTimeout
    · simp [pingserver, he]
    · have : pingTimeout < (e + d + retryDelay) + totalCost rest := by
        simp only [totalCost, List.map_cons, List.sum_cons, refusedCost] at hcost ⊢
        omega
      simp only [List.cons_append, pingserver, he, if_false, ite_false]
      exact ih _ hrest this

/-- Witness for `pingserver_refused_times_out`: a single refused attempt
lasting 60 001 ms exhausts the budget, and the following check times out. -/
theorem pingserver_refused_times_out_witness :
    pingserver ([AttemptOutcome.refused 60001] ++ [AttemptOutcome.silent]) 0
      = PingResult.timeoutError :=
  pingserver_refused_times_out [AttemptOutcome.refused 60001]
    AttemptOutcome.silent 0 (by decide) (by decide)

/-! ## ProtocolRelay (`PathMappingTrackerFactory`, extension.ts lines 311–354)

A DAP message is modelled structurally: the fields the tracker inspects
(`type`, `command`, `event`, `arguments.source.path`, `body.source.path`,
`body.stackFrames[i].source.path`, `body.message`) are explicit; every
other field of each object is collected into an opaque `extra` string that
the tracker never looks at.  `none` models an absent (or falsy) field.
The tracker mutates the message in place and VS Code forwards exactly that
message; this is modelled by pure functions returning the forwarded
message, and — for `onDidSendMessage` — the list of user-facing
notifications raised while processing it. -/

structure Source where
  path : Option FsPath
  extra : String
deriving DecidableEq, Repr

structure StackFrame where
  source : Option Source
  extra : String
deriving DecidableEq, Repr

structure MessageBody where
  source : Option Source
  stackFrames : Option (List StackFrame)
  message : Option String
  extra : String
deriving DecidableEq, Repr

structure CommandArguments where
  source : Option Source
  extra : String
deriving DecidableEq, Repr

structure DAPMessage where
  type : Option String
  command : Option String
  event : Option String
  arguments : Option CommandArguments
  body : Option MessageBody
  extra : String
deriving DecidableEq, Repr

/-- Outbound handler: on a `setBreakpoints` command whose
`arguments.source.path` is present, rewrite that single field to
root-relative; otherwise leave the message untouched. -/
def onWillReceiveMessage (sourceFolder : FsPath) (m : DAPMessage) : DAPMessage :=
  if m.command = some "setBreakpoints" then
    match m.arguments with
    | some args =>
      match args.source with
      | some src =>
        match src.path with
        | some p =>
          { m with
            arguments :=
              some { args with
                source :=
                  some { src with
                    path := some (toRelativePath sourceFolder p) } } }
        | none => m
      | none => m
    | none => m
  else m

/-- Rewrite a `source` object's `path` to absolute when present. -/
def rewriteSourceAbs (sourceFolder : FsPath) (s : Source) : Source :=
  match s.path with
  | some p => { s with path := some (toAbsolutePath sourceFolder p) }
  | none => s

/-- Rewrite one stack frame's `source.path` to absolute when present. -/
def rewriteFrameAbs (sourceFolder : FsPath) (f : StackFrame) : StackFrame :=
  match f.source with
  | some s => { f with source := some (rewriteSourceAbs sourceFolder s) }
  | none => f

/-- Inbound handler: rewrite `body.source.path` and every
`body.stackFrames[i].source.path` to absolute; if the message is an event
named `fatalError`, additionally raise one user-facing notification with
`body.message` (or the fallback text when absent/empty), and forward the
message regardless. -/
def onDidSendMessage (sourceFolder : FsPath) (m : DAPMessage) :
    DAPMessage × List String :=
  let m1 :=
    match m.body with
    | some b =>
      { m with
        body :=
          some { b with
            source := Option.map (rewriteSourceAbs sourceFolder) b.source,
            stackFrames :=
              Option.map (List.map (rewriteFrameAbs sourceFolder)) b.stackFrames } }
    | none => m
  let notifications :=
    if m1.type = some "event" ∧ m1.event = some "fatalError" then
      ["[C11 Debugger] " ++
        (match m1.body with
         | some b =>
           match b.message with
           | some s => if s = "" then "Unknown fatal error" else s
           | none => "Unknown fatal error"
         | none => "Unknown fatal error")]
    else []
  (m1, notifications)

/-- The relay forwards each outbound message through the handler, in
order. -/
def relayOutbound (sourceFolder : FsPath) (ms : List DAPMessage) : List DAPMessage :=
  ms.map (onWillReceiveMessage sourceFolder)

/-- The relay forwards each inbound message through the handler, in
order. -/
def relayInbound (sourceFolder : FsPath) (ms : List DAPMessage) : List DAPMessage :=
  ms.map (fun m => (onDidSendMessage sourceFolder m).1)

/-! ### Field-preservation relations: an output object agrees with its
input everywhere except that a present `source.path` has been rewritten by
`f`. -/

def sourceRel (f : FsPath → FsPath) : Option Source → Option Source → Prop
  | none, none => True
  | some s, some s' => s'.extra = s.extra ∧ s'.path = s.path.map f
  | _, _ => False

def framesRel (f : FsPath → FsPath) :
    Option (List StackFrame) → Option (List StackFrame) → Prop
  | none, none => True
  | some l, some l' =>
    List.Forall₂ (fun a b => b.extra = a.extra ∧ sourceRel f a.source b.source) l l'
  | _, _ => False

def bodyRel (f : FsPath → FsPath) : Option MessageBody → Option MessageBody → Prop
  | none, none => True
  | some b, some b' =>
    b'.message = b.message ∧ b'.extra = b.extra ∧
    sourceRel f b.source b'.source ∧ framesRel f b.stackFrames b'.stackFrames
  | _, _ => False

/-- The forwarded message agrees with the observed one on every field
except the designated inbound path fields, which are rewritten by `f`. -/
def msgRel (f : FsPath → FsPath) (m m' : DAPMessage) : Prop :=
  m'.type = m.type ∧ m'.command = m.command ∧ m'.event = m.event ∧
  m'.arguments = m.arguments ∧ m'.extra = m.extra ∧ bodyRel f m.body m'.body

theorem sourceRel_rewrite (sourceFolder : FsPath) (s : Option Source) :
    sourceRel (toAbsolutePath sourceFolder) s
      (s.map (rewriteSourceAbs sourceFolder)) := by
  cases s with
  | none => trivial
  | some s =>
    cases hp : s.path with
    | none => simp [sourceRel, rewriteSourceAbs, hp]
    | some p => simp [sourceRel, rewriteSourceAbs, hp]

theorem framesRel_rewrite (sourceFolder : FsPath) (l : Option (List StackFrame)) :
    framesRel (toAbsolutePath sourceFolder) l
      (l.map (List.map (rewriteFrameAbs sourceFolder))) := by
  cases l with
  | none => trivial
  | some l =>
    show List.Forall₂
      (fun a b => b.extra = a.extra ∧
        sourceRel (toAbsolutePath sourceFolder) a.source b.source)
      l (l.map (rewriteFrameAbs sourceFolder))
    rw [List.forall₂_map_right_iff]
    rw [List.forall₂_same]
    intro f _
    cases hs : f.source with
    | none => simp [rewriteFrameAbs, hs, sourceRel]
    | some s =>
      refine ⟨by simp [rewriteFrameAbs, hs], ?_⟩
      have := sourceRel_rewrite sourceFolder (some s)
      simpa [rewriteFrameAbs, hs] using this

/-- The inbound handler rewrites only the designated path fields. -/
theorem onDidSendMessage_msgRel (sourceFolder : FsPath) (m : DAPMessage) :
    msgRel (toAbsolutePath sourceFolder) m (onDidSendMessage sourceFolder m).1 := by
  cases hb : m.body with
  | none =>
    simp [onDidSendMessage, hb, msgRel, bodyRel]
  | some b =>
    refine ⟨by simp [onDidSendMessage, hb], by simp [onDidSendMessage, hb],
      by simp [onDidSendMessage, hb], by simp [onDidSendMessage, hb],
      by simp [onDidSendMessage, hb], ?_⟩
    simp only [onDidSendMessage, hb]
    exact ⟨rfl, rfl, sourceRel_rewrite sourceFolder b.source,
      framesRel_rewrite sourceFolder b.stackFrames⟩

/-- A message with no body passes through the inbound handler unchanged. -/
theorem onDidSendMessage_no_body (sourceFolder : FsPath) (m : DAPMessage)
    (hb : m.body = none) : (onDidSendMessage sourceFolder m).1 = m := by
  simp [onDidSendMessage, hb]

/-- claim C6 (confirmed): in both directions exactly one message is
forwarded per message observed, in order; at most the designated path
fields are mutated (`arguments.source.path` on an outbound
`setBreakpoints` command, `body.source.path` and every
`body.stackFrames[i].source.path` inbound); every other field is
preserved, and a message lacking any of the expected fields passes through
unmodified rather than being rejected. -/
theorem tracker_relay_per_message_effect (sourceFolder : FsPath)
    (ms : List DAPMessage) :
    (relayInbound sourceFolder ms).length = ms.length ∧
    (relayOutbound sourceFolder ms).length = ms.length ∧
    (∀ i (h : i < ms.length),
      (relayInbound sourceFolder ms).get ⟨i, by simpa [relayInbound] using h⟩
        = (onDidSendMessage sourceFolder (ms.get ⟨i, h⟩)).1) ∧
    (∀ i (h : i < ms.length),
      (relayOutbound sourceFolder ms).get ⟨i, by simpa [relayOutbound] using h⟩
        = onWillReceiveMessage sourceFolder (ms.get ⟨i, h⟩)) ∧
    (∀ m, msgRel (toAbsolutePath sourceFolder) m (onDidSendMessage sourceFolder m).1) ∧
    (∀ m, m.body = none → (onDidSendMessage sourceFolder m).1 = m) ∧
    (∀ m, m.command ≠ some "setBreakpoints" → onWillReceiveMessage sourceFolder m = m) ∧
    (∀ m args src p, m.command = some "setBreakpoints" → m.arguments = some args →
      args.source = some src → src.path = some p →
      onWillReceiveMessage sourceFolder m =
        { m with
          arguments :=
            some { args with
              source :=
                some { src with
                  path := some (toRelativePath sourceFolder p) } } }) ∧
    (∀ m, m.arguments = none → onWillReceiveMessage sourceFolder m = m) ∧
    (∀ m args, m.arguments = some args → args.source = none →
      onWillReceiveMessage sourceFolder m = m) ∧
    (∀ m args src, m.arguments = some args → args.source = some src →
      src.path = none → onWillReceiveMessage sourceFolder m = m) := by
  refine ⟨by simp [relayInbound], by simp [relayOutbound],
    fun i h => by simp [relayInbound], fun i h => by simp [relayOutbound],
    onDidSendMessage_msgRel sourceFolder, onDidSendMessage_no_body sourceFolder,
    ?_, ?_, ?_, ?_, ?_⟩
  · intro m hc
    simp [onWillReceiveMessage, hc]
  · intro m args src p hc ha hs hp
    simp [onWillReceiveMessage, hc, ha, hs, hp]
  · intro m ha
    by_cases hc : m.command = some "setBreakpoints" <;>
      simp [onWillReceiveMessage, hc, ha]
  · intro m args ha hs
    by_cases hc : m.command = some "setBreakpoints" <;>
      simp [onWillReceiveMessage, hc, ha, hs]
  · intro m args src ha hs hp
    by_cases hc : m.command = some "setBreakpoints" <;>
      simp [onWillReceiveMessage, hc, ha, hs, hp]

/-- Witness for `tracker_relay_per_message_effect`: a response message
without a `setBreakpoints` command passes through the outbound handler
untouched. -/
theorem tracker_relay_per_message_effect_witness :
    onWillReceiveMessage ⟨true, ["w"]⟩
      { type := some "response", command := some "threads", event := none,
        arguments := none, body := none, extra := "seq:4" }
      = { type := some "response", command := some "threads", event := none,
          arguments := none, body := none, extra := "seq:4" } :=
  (tracker_relay_per_message_effect ⟨true, ["w"]⟩ []).2.2.2.2.2.2.1
    _ (by decide)

/-! ### The fatal-error notification (extension.ts lines 347–350)

The source matches `message.type === 'event' && message.event ===
'fatalError'` — the event name carries no space. -/

/-- A concrete source root used by the concrete relay examples. -/
def rootEx : FsPath := ⟨true, ["w"]⟩

/-- An inbound event message whose `event` field is the literal
`"fatal error"` (with a space, as the specification spells the name),
carrying `body.message = "boom"`. -/
def mSpaceEvent : DAPMessage :=
  { type := some "event", command := none, event := some "fatal error",
    arguments := none,
    body := some { source := none, stackFrames := none,
                   message := some "boom", extra := "" },
    extra := "" }

/-- An inbound event message whose `event` field is the literal
`"fatalError"` the source actually matches, carrying
`body.message = "boom"`. -/
def mBoom : DAPMessage :=
  { type := some "event", command := none, event := some "fatalError",
    arguments := none,
    body := some { source := none, stackFrames := none,
                   message := some "boom", extra := "" },
    extra := "" }

/-- claim C5 (counterexample): an inbound event whose name is the
specification's literal `"fatal error"` (with a space) and whose
`body.message` is `"boom"` produces ZERO user-facing notifications — the
source only matches the name `"fatalError"` — refuting that every such
event yields exactly one notification containing `"boom"`. -/
theorem fatal_error_spaced_name_not_matched :
    mSpaceEvent.type = some "event" ∧
    mSpaceEvent.event = some "fatal error" ∧
    (mSpaceEvent.body.map MessageBody.message) = some (some "boom") ∧
    (onDidSendMessage rootEx mSpaceEvent).2 = [] := by
  refine ⟨rfl, rfl, rfl, ?_⟩
  decide

/-- claim C5 (amended): for every inbound message that is an event named
`"fatalError"`, the relay produces exactly one user-facing notification —
`"[C11 Debugger] "` followed by `body.message` when that is present and
non-empty, or by the fallback `"Unknown fatal error"` otherwise — and the
message itself is still relayed, with only the designated inbound path
fields possibly rewritten. -/
theorem fatalError_event_single_notification (sourceFolder : FsPath)
    (m : DAPMessage) (htype : m.type = some "event")
    (hevent : m.event = some "fatalError") :
    ((onDidSendMessage sourceFolder m).2).length = 1 ∧
    (∀ b s, m.body = some b → b.message = some s → s ≠ "" →
      (onDidSendMessage sourceFolder m).2 = ["[C11 Debugger] " ++ s]) ∧
    ((match m.body with
      | some b => b.message = none ∨ b.message = some ""
      | none => True) →
      (onDidSendMessage sourceFolder m).2 = ["[C11 Debugger] Unknown fatal error"]) ∧
    msgRel (toAbsolutePath sourceFolder) m (onDidSendMessage sourceFolder m).1 := by
  refine ⟨?_, ?_, ?_, onDidSendMessage_msgRel sourceFolder m⟩
  · cases hb : m.body with
    | none => simp [onDidSendMessage, hb, htype, hevent]
    | some b => simp [onDidSendMessage, hb, htype, hevent]
  · intro b s hb hs hne
    cases b with
    | mk bsrc bframes bmsg bextra =>
      simp only [MessageBody.message] at hs
      subst hs
      simp [onDidSendMessage, hb, htype, hevent, hne]
  · intro habsent
    cases hb : m.body with
    | none => simp [onDidSendMessage, hb, htype, hevent]
    | some b =>
      rw [hb] at habsent
      simp only at habsent
      rcases habsent with hm | hm <;>
        simp [onDidSendMessage, hb, htype, hevent, hm]

/-- Witness for `fatalError_event_single_notification`: the `"fatalError"`
event carrying `body.message = "boom"` yields exactly the one notification
`"[C11 Debugger] boom"`, which contains `"boom"`. -/
theorem fatalError_event_single_notification_witness :
    (onDidSendMessage rootEx mBoom).2 = ["[C11 Debugger] boom"] ∧
    (∃ pre post, "[C11 Debugger] boom" = pre ++ "boom" ++ post) :=
  ⟨(fatalError_event_single_notification rootEx mBoom rfl rfl).2.1
      _ "boom" rfl rfl (by decide),
   ⟨"[C11 Debugger] ", "", by decide⟩⟩

/-! ## BlockAttributor (`mapLinesToBlocks`, extension.ts lines 420–455)

The source walks the editor's fold ranges (0-based `(start, end)` line
pairs, visited in the order the editor supplies them — ascending start
line), keeps a stack of enclosing fold end-lines seeded with the document
line count (owned by module scope 0, first palette colour), and, for each
fold whose starting line's `trimStart()`ed text begins with `'def '`,
assigns every line of the range in the 1-based `lineMap` (key = 0-based
line + 1): the range's own start line receives the *parent* scope's id and
colour (the parent is whatever the map holds for the stack's top end-line
after popping closed scopes), every other line the fresh scope id and the
palette colour indexed by the stack depth.

The JS reads the parent with `lineMap.get(...)?.blockID!`; when that
non-null assertion would fail (empty stack or unmapped top), the model
returns `none` for the whole computation instead of propagating JavaScript
`undefined`.  `text.trimStart().startsWith('def ')` is modelled over the
line's character list. -/

/-- `String.trimStart()` over a character list. -/
def trimStartChars : List Char → List Char
  | [] => []
  | c :: cs => if c.isWhitespace then trimStartChars cs else c :: cs

/-- Model of `lineText.trimStart().startsWith('def ')`. -/
def isFunctionDefLine (text : String) : Bool :=
  decide ((trimStartChars text.data).take 4 = ['d', 'e', 'f', ' '])

structure LineInfo where
  color : String
  blockID : Nat
deriving DecidableEq, Repr

/-- An editor fold range: 0-based start and end lines (source field `end`,
renamed because `end` is reserved in Lean). -/
structure FoldingRange where
  start : Nat
  stop : Nat
deriving DecidableEq, Repr

/-- The fixed five-colour palette (`getBlockColors`). -/
def getBlockColors : List String :=
  ["#9C27B0", "#2196F3", "#4CAF50", "#FF9800", "#F44336"]

/-- State threaded through the fold-range loop: the 1-based line map, the
enclosing-end stack (top first), and the next fresh scope id. -/
structure BAState where
  lineMap : Nat → Option LineInfo
  endStack : List Nat
  nextBlockId : Nat

/-- `while (fr.start > endStack[endStack.length - 1]) endStack.pop()`. -/
def popWhile (s : Nat) : List Nat → List Nat
  | [] => []
  | e :: rest => if s > e then popWhile s rest else e :: rest

/-- The inner `for (let line = fr.start; line <= fr.end; line++)` loop:
keys `fr.start+1 .. fr.stop+1` are (re)assigned, the first to the parent's
info, the rest to the fresh scope. -/
def assignRange (m : Nat → Option LineInfo) (fr : FoldingRange)
    (parent : LineInfo) (color : String) (bid : Nat) : Nat → Option LineInfo :=
  fun k =>
    if fr.start + 1 ≤ k ∧ k ≤ fr.stop + 1 then
      some (if k = fr.start + 1 then parent else ⟨color, bid⟩)
    else m k

/-- One iteration of the fold-range loop. -/
def processFoldRange (doc : List String) (st : BAState) (fr : FoldingRange) :
    Option BAState :=
  if isFunctionDefLine (doc.getD fr.start "") = false then some st
  else
    match popWhile fr.start st.endStack with
    | [] => none
    | top :: rest =>
      match st.lineMap top with
      | none => none
      | some parent =>
        let color :=
          getBlockColors.getD ((top :: rest).length % getBlockColors.length) ""
        some { lineMap := assignRange st.lineMap fr parent color st.nextBlockId,
               endStack := fr.stop :: top :: rest,
               nextBlockId := st.nextBlockId + 1 }

/-- Initial state: the end stack holds the document line count, and the
line map holds module scope 0 (first palette colour) at that key. -/
def initBAState (doc : List String) : BAState :=
  { lineMap := fun k =>
      if k = doc.length then some ⟨getBlockColors.getD 0 "", 0⟩ else none,
    endStack := [doc.length],
    nextBlockId := 1 }

/-- The whole `mapLinesToBlocks` loop over the supplied fold ranges. -/
def mapLinesToBlocks (doc : List String) (foldRanges : List FoldingRange) :
    Option BAState :=
  foldRanges.foldlM (processFoldRange doc) (initBAState doc)

/-- Final line map produced for a file, queried at 1-based line `k`. -/
def lineAttribution (doc : List String) (foldRanges : List FoldingRange)
    (k : Nat) : Option LineInfo :=
  match mapLinesToBlocks doc foldRanges with
  | some st => st.lineMap k
  | none => none

/-- The 12-line example file: 0-based lines 2 and 4 start (after leading
whitespace) with the function-definition keyword. -/
def exDoc : List String :=
  ["import sys", "x = 1", "def f():", "  y = 1", "  def g():", "    z = 2",
   "    return z", "  a = 2", "  b = 3", "  c = 4", "  return y", "print(x)"]

/-- The example fold ranges `(2,10)` and `(4,6)`, ascending by start. -/
def exFolds : List FoldingRange := [⟨2, 10⟩, ⟨4, 6⟩]

/-- claim C1 (confirmed): when a function fold range is processed, the
range's own starting (definition) line — `lineMap` key `start+1` — is
assigned the parent scope's id and colour while every other line of the
range gets the fresh scope's id and the depth-indexed palette colour, and
lines outside the range keep their previous assignment; instantiated on
the nested fold ranges `(2,10)` and `(4,6)` of the 12-line example file,
the outer definition line (key 3) gets module scope 0, the inner
definition line (key 5) gets the outer scope's id 1, the inner body lines
(keys 6–7) get scope 2, and the remaining lines of the outer range
(keys 4 and 8–11) get scope 1. -/
theorem mapLinesToBlocks_assigns_defLine_to_parent :
    (∀ (doc : List String) (st : BAState) (fr : FoldingRange)
        (top : Nat) (rest : List Nat) (parent : LineInfo),
      isFunctionDefLine (doc.getD fr.start "") = true →
      fr.start ≤ fr.stop →
      popWhile fr.start st.endStack = top :: rest →
      st.lineMap top = some parent →
      ∃ st', processFoldRange doc st fr = some st' ∧
        st'.lineMap (fr.start + 1) = some parent ∧
        (∀ k, fr.start + 2 ≤ k → k ≤ fr.stop + 1 →
          st'.lineMap k = some ⟨getBlockColors.getD
            ((top :: rest).length % getBlockColors.length) "",
            st.nextBlockId⟩) ∧
        (∀ k, k ≤ fr.start ∨ fr.stop + 2 ≤ k →
          st'.lineMap k = st.lineMap k)) ∧
    (lineAttribution exDoc exFolds 3 = some ⟨"#9C27B0", 0⟩ ∧
     lineAttribution exDoc exFolds 4 = some ⟨"#2196F3", 1⟩ ∧
     lineAttribution exDoc exFolds 5 = some ⟨"#2196F3", 1⟩ ∧
     lineAttribution exDoc exFolds 6 = some ⟨"#4CAF50", 2⟩ ∧
     lineAttribution exDoc exFolds 7 = some ⟨"#4CAF50", 2⟩ ∧
     lineAttribution exDoc exFolds 8 = some ⟨"#2196F3", 1⟩ ∧
     lineAttribution exDoc exFolds 9 = some ⟨"#2196F3", 1⟩ ∧
     lineAttribution exDoc exFolds 10 = some ⟨"#2196F3", 1⟩ ∧
     lineAttribution exDoc exFolds 11 = some ⟨"#2196F3", 1⟩ ∧
     lineAttribution exDoc exFolds 12 = some ⟨"#9C27B0", 0⟩) := by
  constructor
  · intro doc st fr top rest parent hdef hse hpop hparent
    simp only [processFoldRange, hdef, hpop, hparent]
    refine ⟨_, rfl, ?_, ?_, ?_⟩
    · simp only [assignRange]
      rw [if_pos ⟨Nat.le_refl _, by omega⟩]
      simp
    · intro k hk1 hk2
      simp only [assignRange]
      rw [if_pos ⟨by omega, hk2⟩, if_neg (by omega)]
    · intro k hk
      simp only [assignRange]
      rw [if_neg (by omega)]
  · refine ⟨?_, ?_, ?_, ?_, ?_, ?_, ?_, ?_, ?_, ?_⟩ <;> decide

/-- Witness for `mapLinesToBlocks_assigns_defLine_to_parent`: the general
part applied to the outer example fold `(2,10)` in the initial state. -/
theorem mapLinesToBlocks_assigns_defLine_to_parent_witness :
    ∃ st', processFoldRange exDoc (initBAState exDoc) ⟨2, 10⟩ = some st' ∧
      st'.lineMap 3 = some ⟨"#9C27B0", 0⟩ := by
  obtain ⟨st', h1, h2, -, -⟩ :=
    mapLinesToBlocks_assigns_defLine_to_parent.1 exDoc (initBAState exDoc)
      ⟨2, 10⟩ 12 [] ⟨"#9C27B0", 0⟩ (by decide) (by decide) (by decide)
      (by decide)
  exact ⟨st', h1, h2⟩

/-! ## HeatmapRenderer (`applyToEditor`, extension.ts lines 538–583)

JavaScript numeric edge cases of `time / totalTime || 0` are modelled
explicitly: `JSNum.nan` is `0/0` (falsy, so `|| 0` replaces it) and
`JSNum.inf` is `t/0` for `t > 0` (truthy, so it would survive `|| 0`).
All quantities appearing here are non-negative, which the model assumes
for `jsDiv`/`jsMul`. -/

inductive JSNum
  | num (q : ℚ)
  | nan
  | inf
deriving DecidableEq, Repr

/-- JS division of non-negative numbers: `0/0` is NaN, `t/0` (`t ≠ 0`) is
Infinity. -/
def jsDiv (a b : ℚ) : JSNum :=
  if b = 0 then (if a = 0 then .nan else .inf) else .num (a / b)

/-- JS `x || d`: NaN and `0` are falsy and give the default. -/
def jsOrNum (x : JSNum) (d : ℚ) : JSNum :=
  match x with
  | .nan => .num d
  | .num q => if q = 0 then .num d else .num q
  | .inf => .inf

/-- JS multiplication by a positive constant. -/
def jsMul (x : JSNum) (c : ℚ) : JSNum :=
  match x with
  | .num q => .num (q * c)
  | .nan => .nan
  | .inf => if c = 0 then .nan else .inf

/-- `Math.round` (half away from zero on non-negatives: `⌊x + 1/2⌋`);
NaN and Infinity pass through. -/
def jsRound : JSNum → JSNum
  | .num q => .num ((⌊q + 1/2⌋ : ℤ) : ℚ)
  | .nan => .nan
  | .inf => .inf

/-- One parsed profile record `[line, hits, time]` (line is 1-based). -/
structure ProfileRecord where
  line : Nat
  hits : Nat
  time : Nat
deriving DecidableEq, Repr

/-- `blockLevels.get(line) ?? { color: this.getBlockColors()[0], blockID: 0 }`
— the fallback used identically by both loops of `applyToEditor`. -/
def lineInfoOf (bl : Nat → Option LineInfo) (line : Nat) : LineInfo :=
  (bl line).getD ⟨getBlockColors.getD 0 "", 0⟩

/-- One step of the first loop of `applyToEditor`:
`blockTime = blockTimes.get(id) ?? 0; blockTime += time;
blockTimes.set(id, blockTime)`. -/
def blockTimesStep (bl : Nat → Option LineInfo) (acc : Nat → Nat)
    (r : ProfileRecord) : Nat → Nat :=
  let b := (lineInfoOf bl r.line).blockID
  fun x => if x = b then acc b + r.time else acc x

/-- The per-scope aggregate times accumulated over all records of the
file (no filtering of any kind, in particular no line-bound check). -/
def blockTimes (bl : Nat → Option LineInfo) (records : List ProfileRecord) :
    Nat → Nat :=
  records.foldl (blockTimesStep bl) (fun _ => 0)

/-- What the second loop of `applyToEditor` computes for one record. -/
structure RenderedLine where
  line : Nat
  hits : Nat
  time : Nat
  ratio : JSNum
  percent : JSNum
  blockColor : String
deriving DecidableEq, Repr

/-- One iteration of the decoration loop: `ratio = time / totalTime || 0`,
`percent = Math.round(ratio * 100)`, and the prefix border takes the
line's scope colour. -/
def renderRecord (bl : Nat → Option LineInfo) (bt : Nat → Nat)
    (r : ProfileRecord) : RenderedLine :=
  let info := lineInfoOf bl r.line
  let totalTime := bt info.blockID
  let ratio := jsOrNum (jsDiv (r.time : ℚ) (totalTime : ℚ)) 0
  let percent := jsRound (jsMul ratio 100)
  ⟨r.line, r.hits, r.time, ratio, percent, info.color⟩

/-- The decoration loop of `applyToEditor`: one rendered entry per record,
in record order. -/
def applyToEditor (bl : Nat → Option LineInfo) (records : List ProfileRecord) :
    List RenderedLine :=
  records.map (renderRecord bl (blockTimes bl records))

/-! ### Renderer lemmas -/

theorem blockTimes_foldl (bl : Nat → Option LineInfo)
    (records : List ProfileRecord) (acc : Nat → Nat) (b : Nat) :
    records.foldl (blockTimesStep bl) acc b =
      acc b + ((records.filter
        (fun r => (lineInfoOf bl r.line).blockID == b)).map
          ProfileRecord.time).sum := by
  induction records generalizing acc with
  | nil => simp
  | cons r rest ih =>
    simp only [List.foldl_cons, List.filter_cons]
    by_cases hb : (lineInfoOf bl r.line).blockID = b
    · rw [ih]
      simp only [blockTimesStep, hb, if_pos rfl, beq_self_eq_true, if_true,
        List.map_cons, List.sum_cons]
      omega
    · rw [ih]
      have hbeq : ((lineInfoOf bl r.line).blockID == b) = false := by
        simpa using hb
      simp only [blockTimesStep, hbeq, if_false, Bool.false_eq_true, ite_false]
      rw [if_neg (by omega)]

/-- A record's own time is always part of its scope's aggregate. -/
theorem time_le_blockTimes (bl : Nat → Option LineInfo)
    (records : List ProfileRecord) (r : ProfileRecord) (hr : r ∈ records) :
    r.time ≤ blockTimes bl records ((lineInfoOf bl r.line).blockID) := by
  rw [blockTimes, blockTimes_foldl]
  have hmem : r.time ∈ ((records.filter
      (fun x => (lineInfoOf bl x.line).blockID ==
        (lineInfoOf bl r.line).blockID)).map ProfileRecord.time) :=
    List.mem_map_of_mem _ (List.mem_filter.2 ⟨hr, by simp⟩)
  have := List.le_sum_of_mem hmem
  omega

theorem jsOrNum_num_zero (q : ℚ) : jsOrNum (.num q) 0 = .num q := by
  simp only [jsOrNum]
  split_ifs with h
  · rw [h]
  · rfl

/-- The computed ratio and percent collapse to the specification's pure
formula: `ratio = time / scopeTotal` (`0` when the scope total is `0`) and
`percent = round(ratio * 100)`; neither NaN nor Infinity survives, because
the scope total includes the record's own time. -/
theorem renderRecord_spec (bl : Nat → Option LineInfo)
    (records : List ProfileRecord) (r : ProfileRecord) (hr : r ∈ records) :
    (renderRecord bl (blockTimes bl records) r).ratio =
      .num (if blockTimes bl records ((lineInfoOf bl r.line).blockID) = 0
            then 0
            else (r.time : ℚ) /
              (blockTimes bl records ((lineInfoOf bl r.line).blockID) : ℚ)) ∧
    (renderRecord bl (blockTimes bl records) r).percent =
      .num ((⌊(if blockTimes bl records ((lineInfoOf bl r.line).blockID) = 0
               then (0 : ℚ)
               else (r.time : ℚ) /
                 (blockTimes bl records ((lineInfoOf bl r.line).blockID) : ℚ))
              * 100 + 1/2⌋ : ℤ) : ℚ) := by
  by_cases h0 : blockTimes bl records ((lineInfoOf bl r.line).blockID) = 0
  · have ht : r.time = 0 := by
      have := time_le_blockTimes bl records r hr
      omega
    rw [if_pos h0]
    constructor
    · simp [renderRecord, jsDiv, jsOrNum, h0, ht]
    · simp [renderRecord, jsDiv, jsOrNum, jsMul, jsRound, h0, ht]
  · have h0q : ((blockTimes bl records ((lineInfoOf bl r.line).blockID) : ℚ)) ≠ 0 := by
      exact_mod_cast h0
    rw [if_neg h0]
    constructor
    · simp only [renderRecord, jsDiv, if_neg h0q, jsOrNum_num_zero]
    · simp only [renderRecord, jsDiv, if_neg h0q, jsOrNum_num_zero, jsMul, jsRound]

/-! ### Renderer examples -/

/-- A 2-line example file with no function folds: every record falls into
module scope 0. -/
def exDoc2 : List String := ["x = 1", "y = 2"]

/-- The line map `mapLinesToBlocks` produces for `exDoc2` (only the module
sentinel entry at key 2). -/
def exMap2 : Nat → Option LineInfo := lineAttribution exDoc2 []

/-- The example records `[[1,10,100],[2,5,50]]`. -/
def exRecs : List ProfileRecord := [⟨1, 10, 100⟩, ⟨2, 5, 50⟩]

/-- claim C8 (confirmed): for every rendered record, the computed ratio is
`time / scopeTotal` of the line's owning scope (`0` when that total is `0`)
and the displayed percent is `round(ratio × 100)`; for the records
`[[1,10,100],[2,5,50]]`, both in module scope `0`, the scope total is 150
and the displayed percents are 67 and 33. -/
theorem render_percent_formula :
    (∀ (bl : Nat → Option LineInfo) (records : List ProfileRecord)
        (r : ProfileRecord), r ∈ records →
      (renderRecord bl (blockTimes bl records) r).ratio =
        .num (if blockTimes bl records ((lineInfoOf bl r.line).blockID) = 0
              then 0
              else (r.time : ℚ) /
                (blockTimes bl records ((lineInfoOf bl r.line).blockID) : ℚ)) ∧
      (renderRecord bl (blockTimes bl records) r).percent =
        .num ((⌊(if blockTimes bl records ((lineInfoOf bl r.line).blockID) = 0
                 then (0 : ℚ)
                 else (r.time : ℚ) /
                   (blockTimes bl records ((lineInfoOf bl r.line).blockID) : ℚ))
                * 100 + 1/2⌋ : ℤ) : ℚ)) ∧
    ((lineInfoOf exMap2 1).blockID = 0 ∧ (lineInfoOf exMap2 2).blockID = 0 ∧
     blockTimes exMap2 exRecs 0 = 150 ∧
     (applyToEditor exMap2 exRecs).map RenderedLine.percent
        = [JSNum.num 67, JSNum.num 33]) := by
  refine ⟨fun bl records r hr => renderRecord_spec bl records r hr,
    by decide, by decide, by decide, ?_⟩
  have h1 := (renderRecord_spec exMap2 exRecs ⟨1, 10, 100⟩ (by decide)).2
  have h2 := (renderRecord_spec exMap2 exRecs ⟨2, 5, 50⟩ (by decide)).2
  have hb1 : blockTimes exMap2 exRecs
      ((lineInfoOf exMap2 (ProfileRecord.mk 1 10 100).line).blockID) = 150 := by
    decide
  have hb2 : blockTimes exMap2 exRecs
      ((lineInfoOf exMap2 (ProfileRecord.mk 2 5 50).line).blockID) = 150 := by
    decide
  rw [hb1] at h1
  rw [hb2] at h2
  norm_num at h1 h2
  show [(renderRecord exMap2 (blockTimes exMap2 exRecs) ⟨1, 10, 100⟩).percent,
        (renderRecord exMap2 (blockTimes exMap2 exRecs) ⟨2, 5, 50⟩).percent]
      = [JSNum.num 67, JSNum.num 33]
  rw [h1, h2]

/-- Witness for `render_percent_formula` instantiated at the second
example record. -/
theorem render_percent_formula_witness :
    (renderRecord exMap2 (blockTimes exMap2 exRecs) ⟨2, 5, 50⟩).ratio =
      .num (if blockTimes exMap2 exRecs ((lineInfoOf exMap2 2).blockID) = 0
            then 0
            else ((50 : ℚ) /
              (blockTimes exMap2 exRecs ((lineInfoOf exMap2 2).blockID) : ℚ))) :=
  (render_percent_formula.1 exMap2 exRecs ⟨2, 5, 50⟩ (by decide)).1

/-- claim C10 (confirmed): every record of a rendered file is attributed to
some scope — a line absent from the fold-derived map falls back to module
scope 0 with the first palette colour, and the same fallback is used when
aggregating, so the record's scope total includes its own time; hence the
ratio lies in `[0, 1]` and the displayed percent in `[0, 100]`. -/
theorem render_ratio_bounds (bl : Nat → Option LineInfo)
    (records : List ProfileRecord) (r : ProfileRecord) (hr : r ∈ records) :
    (bl r.line = none →
      lineInfoOf bl r.line = ⟨getBlockColors.getD 0 "", 0⟩) ∧
    r.time ≤ blockTimes bl records ((lineInfoOf bl r.line).blockID) ∧
    (∃ q : ℚ,
      (renderRecord bl (blockTimes bl records) r).ratio = .num q ∧
      0 ≤ q ∧ q ≤ 1 ∧
      (renderRecord bl (blockTimes bl records) r).percent
        = .num ((⌊q * 100 + 1/2⌋ : ℤ) : ℚ) ∧
      0 ≤ ⌊q * 100 + 1/2⌋ ∧ ⌊q * 100 + 1/2⌋ ≤ 100) := by
  refine ⟨fun h => by simp [lineInfoOf, h],
    time_le_blockTimes bl records r hr, ?_⟩
  obtain ⟨hratio, hpercent⟩ := renderRecord_spec bl records r hr
  by_cases h0 : blockTimes bl records ((lineInfoOf bl r.line).blockID) = 0
  · rw [if_pos h0] at hratio hpercent
    refine ⟨0, hratio, le_refl 0, by norm_num, hpercent, ?_, ?_⟩
    · norm_num
    · norm_num
  · rw [if_neg h0] at hratio hpercent
    have hTpos : (0 : ℚ) <
        (blockTimes bl records ((lineInfoOf bl r.line).blockID) : ℚ) := by
      exact_mod_cast Nat.pos_of_ne_zero h0
    have hle : (r.time : ℚ) ≤
        (blockTimes bl records ((lineInfoOf bl r.line).blockID) : ℚ) := by
      exact_mod_cast time_le_blockTimes bl records r hr
    have hq0 : (0 : ℚ) ≤ (r.time : ℚ) /
        (blockTimes bl records ((lineInfoOf bl r.line).blockID) : ℚ) := by
      positivity
    have hq1 : (r.time : ℚ) /
        (blockTimes bl records ((lineInfoOf bl r.line).blockID) : ℚ) ≤ 1 :=
      (div_le_one hTpos).2 hle
    refine ⟨_, hratio, hq0, hq1, hpercent, ?_, ?_⟩
    · exact Int.floor_nonneg.2 (by linarith)
    · have hup : (r.time : ℚ) /
          (blockTimes bl records ((lineInfoOf bl r.line).blockID) : ℚ)
            * 100 + 1/2 ≤ 201/2 := by linarith
      calc ⌊(r.time : ℚ) /
            (blockTimes bl records ((lineInfoOf bl r.line).blockID) : ℚ)
              * 100 + 1/2⌋
          ≤ ⌊(201 : ℚ)/2⌋ := Int.floor_mono hup
        _ = 100 := by norm_num

/-- Witness for `render_ratio_bounds`: the first example record's time is
part of its scope's aggregate. -/
theorem render_ratio_bounds_witness :
    (ProfileRecord.mk 1 10 100).time ≤ blockTimes exMap2 exRecs
      ((lineInfoOf exMap2 (ProfileRecord.mk 1 10 100).line).blockID) :=
  (render_ratio_bounds exMap2 exRecs ⟨1, 10, 100⟩ (by decide)).2.1

/-! ### Out-of-range records (claim C7) -/

/-- Records for the 2-line file `exDoc2`, one of them on line 99 — far
beyond the file's line count. -/
def exRecsOut : List ProfileRecord := [⟨1, 1, 100⟩, ⟨99, 1, 100⟩]

/-- claim C7 (counterexample): a record whose line (99) lies outside the
2-line file is NOT ignored: its time is added to module scope 0's
aggregate (200, not 100), and a rendered decoration entry for line 99 is
produced. -/
theorem out_of_range_record_contributes :
    exDoc2.length = 2 ∧
    exMap2 99 = none ∧
    blockTimes exMap2 exRecsOut 0 = 200 ∧
    (applyToEditor exMap2 exRecsOut).map RenderedLine.line = [1, 99] := by
  refine ⟨rfl, by decide, by decide, by decide⟩

/-- claim C7 (amended): a record whose line is absent from the line map —
in particular any line beyond the file's line count — is processed like
any other record: it is attributed to module scope 0 with the first
palette colour, its time is included in scope 0's aggregate, and it
produces a rendered decoration entry for its own (possibly out-of-range)
line; rendering is a total function, so no error is ever raised. -/
theorem out_of_range_record_processed_like_any (bl : Nat → Option LineInfo)
    (records : List ProfileRecord) :
    (applyToEditor bl records).length = records.length ∧
    ∀ r ∈ records, bl r.line = none →
      ((renderRecord bl (blockTimes bl records) r).blockColor
          = getBlockColors.getD 0 "" ∧
       r.time ≤ blockTimes bl records 0 ∧
       r.line ∈ (applyToEditor bl records).map RenderedLine.line) := by
  refine ⟨by simp [applyToEditor], ?_⟩
  intro r hr hnone
  have hinfo : lineInfoOf bl r.line = ⟨getBlockColors.getD 0 "", 0⟩ := by
    simp [lineInfoOf, hnone]
  refine ⟨?_, ?_, ?_⟩
  · simp [renderRecord, hinfo]
  · have := time_le_blockTimes bl records r hr
    rwa [hinfo] at this
  · have hline : r.line
        = RenderedLine.line (renderRecord bl (blockTimes bl records) r) := rfl
    rw [hline]
    exact List.mem_map_of_mem _ (List.mem_map_of_mem _ hr)

/-- Witness for `out_of_range_record_processed_like_any` at the line-99
record of the example. -/
theorem out_of_range_record_processed_like_any_witness :
    (renderRecord exMap2 (blockTimes exMap2 exRecsOut) ⟨99, 1, 100⟩).blockColor
      = getBlockColors.getD 0 "" :=
  ((out_of_range_record_processed_like_any exMap2 exRecsOut).2
    ⟨99, 1, 100⟩ (by decide) (by decide)).1

/-! ## DurationFormatter (`formatDuration`, extension.ts lines 603–623)

JavaScript floating-point arithmetic is modelled exactly over `ℚ`;
`Math.floor` is `Int.floor` and `Math.round x` is `⌊x + 1/2⌋` (these agree
with the JS semantics on the values arising here). -/

/-- The source's `formatDuration`, including the `clocksPerSec || 1`
guard. -/
def formatDuration (clocksPerSec : ℚ) (clockTicks : Nat) : String :=
  let cps := if clocksPerSec = 0 then 1 else clocksPerSec
  let seconds : ℚ := (clockTicks : ℚ) / cps
  let ms : ℚ := seconds * 1000
  let us : ℚ := seconds * 1000000
  if 1 ≤ seconds then
    let wholeS : ℤ := ⌊seconds⌋
    let remainMs : ℤ := ⌊(seconds - (wholeS : ℚ)) * 1000 + 1/2⌋
    if 0 < remainMs then toString wholeS ++ "s " ++ toString remainMs ++ "ms"
    else toString wholeS ++ "s"
  else if 1 ≤ ms then
    let wholeMs : ℤ := ⌊ms⌋
    let remainUs : ℤ := ⌊(ms - (wholeMs : ℚ)) * 1000 + 1/2⌋
    if 0 < remainUs then toString wholeMs ++ "ms " ++ toString remainUs ++ "µs"
    else toString wholeMs ++ "ms"
  else
    toString (⌊us + 1/2⌋ : ℤ) ++ "µs"

/-- Modelled from the spec: `DurationFormatter` exactly as §4.7 words it —
`seconds = ticks / clocksPerSec`; if seconds ≥ 1, `"{floor(seconds)}s"`
with `" {round(remainder×1000)}ms"` appended only when that rounds
non-zero; else if milliseconds ≥ 1, `"{floor(ms)}ms"` with
`" {round(remainder_µs)}µs"` appended only when non-zero; else
`"{round(microseconds)}µs"`. -/
def DurationFormatter (clocksPerSec : ℚ) (clockTicks : Nat) : String :=
  let seconds : ℚ := (clockTicks : ℚ) / clocksPerSec
  let ms : ℚ := seconds * 1000
  let us : ℚ := seconds * 1000000
  if 1 ≤ seconds then
    let wholeS : ℤ := ⌊seconds⌋
    let remainMs : ℤ := ⌊(seconds - (wholeS : ℚ)) * 1000 + 1/2⌋
    if 0 < remainMs then toString wholeS ++ "s " ++ toString remainMs ++ "ms"
    else toString wholeS ++ "s"
  else if 1 ≤ ms then
    let wholeMs : ℤ := ⌊ms⌋
    let remainUs : ℤ := ⌊(ms - (wholeMs : ℚ)) * 1000 + 1/2⌋
    if 0 < remainUs then toString wholeMs ++ "ms " ++ toString remainUs ++ "µs"
    else toString wholeMs ++ "ms"
  else
    toString (⌊us + 1/2⌋ : ℤ) ++ "µs"

/-- claim C9 (confirmed): for positive `clocksPerSec` the source formatter
coincides with the specification's `DurationFormatter` casework on
`seconds = ticks / clocksPerSec`; the three sample points evaluate to
`"1s 500ms"`, `"2ms 500µs"` and `"3µs"`; and every output consists of the
leading unit with a lower-unit component appended only when it is
non-zero — never a redundant zero component. -/
theorem formatDuration_matches_spec :
    (formatDuration 1000000 1500000 = "1s 500ms" ∧
     formatDuration 1000000 2500 = "2ms 500µs" ∧
     formatDuration 1000000 3 = "3µs") ∧
    (∀ (cps : ℚ) (ticks : Nat), 0 < cps →
      formatDuration cps ticks = DurationFormatter cps ticks) ∧
    (∀ (cps : ℚ) (ticks : Nat),
      (∃ a : ℤ, formatDuration cps ticks = toString a ++ "s") ∨
      (∃ a b : ℤ, 0 < b ∧
        formatDuration cps ticks = toString a ++ "s " ++ toString b ++ "ms") ∨
      (∃ a : ℤ, formatDuration cps ticks = toString a ++ "ms") ∨
      (∃ a b : ℤ, 0 < b ∧
        formatDuration cps ticks = toString a ++ "ms " ++ toString b ++ "µs") ∨
      (∃ a : ℤ, formatDuration cps ticks = toString a ++ "µs")) := by
  refine ⟨⟨?_, ?_, ?_⟩, ?_, ?_⟩
  · simp only [formatDuration]
    norm_num
    rfl
  · simp only [formatDuration]
    norm_num
    rfl
  · simp only [formatDuration]
    norm_num
    rfl
  · intro cps ticks hpos
    have hne : cps ≠ 0 := ne_of_gt hpos
    simp only [formatDuration, DurationFormatter, if_neg hne]
  · intro cps ticks
    simp only [formatDuration]
    generalize (if cps = 0 then (1 : ℚ) else cps) = c
    split_ifs with hs hr hm hu
    · exact Or.inr (Or.inl ⟨_, _, hr, rfl⟩)
    · exact Or.inl ⟨_, rfl⟩
    · exact Or.inr (Or.inr (Or.inr (Or.inl ⟨_, _, hu, rfl⟩)))
    · exact Or.inr (Or.inr (Or.inl ⟨_, rfl⟩))
    · exact Or.inr (Or.inr (Or.inr (Or.inr ⟨_, rfl⟩)))

/-- Witness for `formatDuration_matches_spec`: the guarded and unguarded
formatters agree at the first sample point. -/
theorem formatDuration_matches_spec_witness :
    formatDuration 1000000 1500000 = DurationFormatter 1000000 1500000 :=
  formatDuration_matches_spec.2.1 1000000 1500000 (by norm_num)
